import Mathlib

/-!
Shallow embedding of `cursive-spreadsheet-view` (`src/lib.rs`), an engine for a
tabular view: column registry, record store, stable sort, cursor state.

Modelling conventions:
* Rust `usize` is `Nat` (the code performs no subtraction or wrapping
  arithmetic on sizes except the guarded `lx - 1` / `ly - 1`, taken only when
  the value is positive).
* `indexmap::IndexMap<String, ColumnDef>` is an association list in insertion
  order; `insert` replaces the value of the first matching key in place and
  appends fresh keys, `shift_remove` deletes the first matching key and keeps
  the order of the remaining entries, both exactly as documented by `indexmap`.
* `HashMap<String, D>` (a record) is an association list; `get` returns the
  first binding of the key.
* `HashSet<(usize, usize)>` is modelled by its element list (no operation in
  the source mutates it).
* `Vec::sort_by` is a stable sort driven by an `Ordering`-valued comparator;
  it is modelled by `List.insertionSort` with the relation
  `le a b := comparator a b ≠ Greater`, the standard reflection of such a
  comparator.  The comparator used by the code is induced by a total order, so
  its reflection is a total preorder, and a stable sort's output under a total
  preorder is unique: any stable sort models `Vec::sort_by` faithfully, and
  `List.insertionSort` is chosen because it is structurally recursive and
  therefore evaluates on concrete inputs.
* The cursive-framework fields `scroll_base` (a `ScrollBase`) and the three
  callback slots (`Rc<dyn Fn ...>` into the host toolkit) are opaque host
  values that no modelled operation reads or writes; they are omitted from the
  state.
-/

/-- `cursive::align::HAlign`. -/
inductive HAlign where
  | Left
  | Center
  | Right
deriving DecidableEq, Repr

/-- `ColumnWidth` from `src/lib.rs`. -/
inductive ColumnWidth where
  | Auto
  | Min (min_width : Nat)
  | Max (max_width : Nat)
  | Bound (min_width : Nat) (delta : Nat)
  | Fixed (width : Nat)
deriving DecidableEq, Repr

/-- `ColumnWidth::bounds` from `src/lib.rs`. -/
def ColumnWidth.bounds : ColumnWidth → Nat × Option Nat
  | .Auto => (0, none)
  | .Min min_width => (min_width, none)
  | .Max max_width => (0, some max_width)
  | .Bound min_width delta => (min_width, some (min_width + delta))
  | .Fixed width => (width, some width)

/-- `ColumnDef` from `src/lib.rs`. -/
structure ColumnDef where
  title : String
  width : ColumnWidth
  alignment : HAlign
  selected : Bool
deriving DecidableEq, Repr

/-- `Record<D> = HashMap<String, D>`, modelled as an association list. -/
structure Record (D : Type) where
  entries : List (String × D)
deriving DecidableEq, Repr

/-- `HashMap::get`, as used in `sort_records`: the value bound to `key`. -/
def Record.get {D : Type} (r : Record D) (key : String) : Option D :=
  (r.entries.find? (fun p => p.1 == key)).map Prod.snd

/-- `IndexMap::insert`: replace the value of the first entry
with key `k` in place; append when no entry has key `k`. -/
def indexMapInsert {V : Type} : List (String × V) → String → V → List (String × V)
  | [], k, v => [(k, v)]
  | (k', v') :: rest, k, v =>
    if k' = k then (k', v) :: rest
    else (k', v') :: indexMapInsert rest k v

/-- `IndexMap::shift_remove`: remove the first entry with key `k`, preserving
the relative order of the remaining entries; return the removed value. -/
def indexMapShiftRemove {V : Type} : List (String × V) → String → Option V × List (String × V)
  | [], _ => (none, [])
  | (k', v') :: rest, k =>
    if k' = k then (some v', rest)
    else
      let r := indexMapShiftRemove rest k
      (r.1, (k', v') :: r.2)

/-- `IndexMap::contains_key`. -/
def indexMapContainsKey {V : Type} (m : List (String × V)) (k : String) : Bool :=
  m.any (fun p => p.1 == k)

/-- `IndexMap::pop`: remove and return the last entry. -/
def indexMapPop {V : Type} (m : List (String × V)) : Option (String × V) × List (String × V) :=
  match m.getLast? with
  | none => (none, m)
  | some p => (some p, m.dropLast)

/-- The state of `SpreadsheetView<D>` from `src/lib.rs` (host-toolkit fields
`scroll_base` and the callback slots omitted, see module docstring). -/
structure SpreadsheetView (D : Type) where
  columns : List (String × ColumnDef)
  records : List (Record D)
  enabled : Bool
  last_size : Nat × Nat
  read_only : Bool
  cursor_pos : Option (Nat × Nat)
  selected_cells : List (Nat × Nat)
  column_select : Bool
deriving DecidableEq, Repr

/-- `SpreadsheetView::new`. -/
def SpreadsheetView.new {D : Type} : SpreadsheetView D where
  columns := []
  records := []
  enabled := true
  last_size := (0, 0)
  read_only := true
  cursor_pos := none
  selected_cells := []
  column_select := false

/-- `SpreadsheetView::push_column`. -/
def SpreadsheetView.push_column {D : Type} (v : SpreadsheetView D) (key : String)
    (column_def : ColumnDef) : SpreadsheetView D :=
  { v with columns := indexMapInsert v.columns key column_def }

/-- `SpreadsheetView::remove_column`: removed definition plus updated state. -/
def SpreadsheetView.remove_column {D : Type} (v : SpreadsheetView D) (key : String) :
    Option ColumnDef × SpreadsheetView D :=
  let r := indexMapShiftRemove v.columns key
  (r.1, { v with columns := r.2 })

/-- `SpreadsheetView::pop_column`: removed definition plus updated state. -/
def SpreadsheetView.pop_column {D : Type} (v : SpreadsheetView D) :
    Option ColumnDef × SpreadsheetView D :=
  let r := indexMapPop v.columns
  (r.1.map Prod.snd, { v with columns := r.2 })

/-- `SpreadsheetView::len_columns`. -/
def SpreadsheetView.len_columns {D : Type} (v : SpreadsheetView D) : Nat :=
  v.columns.length

/-- `SpreadsheetView::push_record`. -/
def SpreadsheetView.push_record {D : Type} (v : SpreadsheetView D) (record : Record D) :
    SpreadsheetView D :=
  { v with records := v.records ++ [record] }

/-- `SpreadsheetView::extend_records`. -/
def SpreadsheetView.extend_records {D : Type} (v : SpreadsheetView D) (iter : List (Record D)) :
    SpreadsheetView D :=
  { v with records := v.records ++ iter }

/-- `SpreadsheetView::pop_record`: removed record plus updated state. -/
def SpreadsheetView.pop_record {D : Type} (v : SpreadsheetView D) :
    Option (Record D) × SpreadsheetView D :=
  (v.records.getLast?, { v with records := v.records.dropLast })

/-- `SpreadsheetView::remove_record`: removed record plus updated state. -/
def SpreadsheetView.remove_record {D : Type} (v : SpreadsheetView D) (index : Nat) :
    Option (Record D) × SpreadsheetView D :=
  if index < v.records.length then
    (v.records[index]?, { v with records := v.records.eraseIdx index })
  else (none, v)

/-- `SpreadsheetView::clear_records`. -/
def SpreadsheetView.clear_records {D : Type} (v : SpreadsheetView D) : SpreadsheetView D :=
  { v with records := [] }

/-- `SpreadsheetView::len_records`. -/
def SpreadsheetView.len_records {D : Type} (v : SpreadsheetView D) : Nat :=
  v.records.length

/-- Rust `Option::cmp` for `Option<D>`: `None` is less than any `Some`,
`Some` values compare by the item order. -/
def cmpOption {D : Type} [LinearOrder D] : Option D → Option D → Ordering
  | none, none => .eq
  | none, some _ => .lt
  | some _, none => .gt
  | some a, some b => compare a b

/-- The comparator closure of `sort_records`:
`let o = ra.get(key).cmp(&rb.get(key)); if ascending { o } else { o.reverse() }`. -/
def recordCompare {D : Type} [LinearOrder D] (key : String) (ascending : Bool)
    (ra rb : Record D) : Ordering :=
  let o := cmpOption (ra.get key) (rb.get key)
  if ascending then o else o.swap

/-- Boolean reflection of the comparator, fed to the stable sort:
`ra` may stay before `rb` iff the comparator does not say Greater. -/
def recordLe {D : Type} [LinearOrder D] (key : String) (ascending : Bool)
    (ra rb : Record D) : Bool :=
  match recordCompare key ascending ra rb with
  | .gt => false
  | _ => true

/-- `recordLe` as a relation, for `List.insertionSort`. -/
def recordLeP {D : Type} [LinearOrder D] (key : String) (ascending : Bool)
    (ra rb : Record D) : Prop :=
  recordLe key ascending ra rb = true

instance recordLeP.instDecidableRel {D : Type} [LinearOrder D] (key : String) (ascending : Bool) :
    DecidableRel (recordLeP (D := D) key ascending) := fun ra rb => by
  unfold recordLeP
  infer_instance

/-- `SpreadsheetView::sort_records`: no-op when `key` is not a column,
otherwise a stable sort of `records` by the comparator above. -/
def SpreadsheetView.sort_records {D : Type} [LinearOrder D] (v : SpreadsheetView D)
    (key : String) (ascending : Bool) : SpreadsheetView D :=
  if indexMapContainsKey v.columns key then
    { v with records := v.records.insertionSort (recordLeP key ascending) }
  else v

/-- `SpreadsheetView::set_cursor_pos`. -/
def SpreadsheetView.set_cursor_pos {D : Type} (v : SpreadsheetView D) (x y : Nat) :
    SpreadsheetView D :=
  let num_cols := v.len_columns
  let num_recs := v.len_records
  { v with
    cursor_pos :=
      match num_cols, num_recs with
      | 0, _ => none
      | _, 0 => none
      | lx, ly => some (Nat.min x (lx - 1), Nat.min y (ly - 1)) }

/-- `SpreadsheetView::disable`. -/
def SpreadsheetView.disable {D : Type} (v : SpreadsheetView D) : SpreadsheetView D :=
  { v with enabled := false }

/-- `SpreadsheetView::enable`. -/
def SpreadsheetView.enable {D : Type} (v : SpreadsheetView D) : SpreadsheetView D :=
  { v with enabled := true }

/-- `SpreadsheetView::set_enabled`. -/
def SpreadsheetView.set_enabled {D : Type} (v : SpreadsheetView D) (enabled : Bool) :
    SpreadsheetView D :=
  { v with enabled := enabled }

/-- `SpreadsheetView::is_enabled`. -/
def SpreadsheetView.is_enabled {D : Type} (v : SpreadsheetView D) : Bool :=
  v.enabled

/-- The cursor-validity invariant of the spec: whenever the cursor is present,
its coordinates are within the current column and record counts. -/
def cursorOk {D : Type} (v : SpreadsheetView D) : Prop :=
  match v.cursor_pos with
  | none => True
  | some (x, y) => x < v.len_columns ∧ y < v.len_records

instance {D : Type} (v : SpreadsheetView D) : Decidable (cursorOk v) := by
  unfold cursorOk
  match v.cursor_pos with
  | none => exact inferInstance
  | some (x, y) => exact inferInstance

/-- "Records lacking the sort key occupy the low end of the sequence": no
record with the key present is ever followed by further records unless those
too have the key, i.e. pairwise in order, once the key is present it stays
present.  Equivalently, the key-lacking records form a prefix. -/
def absentsAtLowEnd {D : Type} (key : String) (rs : List (Record D)) : Prop :=
  rs.Pairwise (fun r1 r2 => (r1.get key).isSome = true → (r2.get key).isSome = true)

instance {D : Type} (key : String) (rs : List (Record D)) :
    Decidable (absentsAtLowEnd key rs) := by
  unfold absentsAtLowEnd
  infer_instance

/-- "Records lacking the sort key occupy the high end of the sequence": the
key-lacking records form a suffix. -/
def absentsAtHighEnd {D : Type} (key : String) (rs : List (Record D)) : Prop :=
  rs.Pairwise (fun r1 r2 => r1.get key = none → r2.get key = none)

instance {D : Type} [DecidableEq D] (key : String) (rs : List (Record D)) :
    Decidable (absentsAtHighEnd key rs) := by
  unfold absentsAtHighEnd
  infer_instance

/-- A host call mutating the column registry. -/
inductive ColOp where
  | push (key : String) (column_def : ColumnDef)
  | remove (key : String)

/-- Run a sequence of column-registry calls on a view. -/
def applyColOps {D : Type} (v : SpreadsheetView D) : List ColOp → SpreadsheetView D
  | [] => v
  | ColOp.push k cd :: ops => applyColOps (v.push_column k cd) ops
  | ColOp.remove k :: ops => applyColOps (v.remove_column k).2 ops

/-- The spec's description of column iteration order, stated directly on the
call sequence: the key list after each call is, for an insert, unchanged when
the key is already present and extended at the end when it is new; for a
remove, the list with that key erased. -/
def specColumnKeys (ks : List String) : List ColOp → List String
  | [] => ks
  | ColOp.push k _ :: ops => specColumnKeys (if k ∈ ks then ks else ks ++ [k]) ops
  | ColOp.remove k :: ops => specColumnKeys (ks.erase k) ops

/-- A concrete column definition for concrete instances. -/
def colDefK : ColumnDef := ⟨"K", ColumnWidth.Auto, HAlign.Left, false⟩

/-- A record with value 5 at key "k" and 1 at key "a". -/
def recW1 : Record Nat := ⟨[("k", 5), ("a", 1)]⟩

/-- A record with value 5 at key "k" and 2 at key "a". -/
def recW2 : Record Nat := ⟨[("k", 5), ("a", 2)]⟩

/-- A view with one column "k" and records `[recW1, recW2]`. -/
def viewW1 : SpreadsheetView Nat :=
  ((SpreadsheetView.new.push_column "k" colDefK).push_record recW1).push_record recW2

/-- A record with value 3 at key "k". -/
def recPresent : Record Nat := ⟨[("k", 3)]⟩

/-- A record with no entries. -/
def recAbsent : Record Nat := ⟨[]⟩

/-- A view with one column "k" whose first record lacks "k" and whose second
record has it. -/
def viewC2 : SpreadsheetView Nat :=
  ((SpreadsheetView.new.push_column "k" colDefK).push_record recAbsent).push_record recPresent

/-- A view with one column, one record, and the cursor placed at (0, 0). -/
def viewC3 : SpreadsheetView Nat :=
  ((SpreadsheetView.new.push_column "k" colDefK).push_record recPresent).set_cursor_pos 0 0

/-- C9: `ColumnWidth::bounds` returns the pair the spec assigns to each
variant, and in the `Bound` and `Fixed` cases the returned maximum is at
least the returned minimum. -/
theorem columnWidth_bounds_spec :
    ColumnWidth.Auto.bounds = (0, none) ∧
    (∀ n : Nat, (ColumnWidth.Min n).bounds = (n, none)) ∧
    (∀ n : Nat, (ColumnWidth.Max n).bounds = (0, some n)) ∧
    (∀ mn d : Nat, (ColumnWidth.Bound mn d).bounds = (mn, some (mn + d)) ∧ mn ≤ mn + d) ∧
    (∀ n : Nat, (ColumnWidth.Fixed n).bounds = (n, some n) ∧ n ≤ n) :=
  ⟨rfl, fun _ => rfl, fun _ => rfl,
    fun mn d => ⟨rfl, Nat.le_add_right mn d⟩,
    fun n => ⟨rfl, Nat.le_refl n⟩⟩

theorem compare_swap_eq {D : Type} [LinearOrder D] (x y : D) :
    (compare x y).swap = compare y x := by
  rcases lt_trichotomy x y with h | h | h
  · rw [compare_lt_iff_lt.mpr h, compare_gt_iff_gt.mpr h]
    rfl
  · rw [h, compare_eq_iff_eq.mpr rfl]
    rfl
  · rw [compare_gt_iff_gt.mpr h, compare_lt_iff_lt.mpr h]
    rfl

theorem cmpOption_swap {D : Type} [LinearOrder D] (a b : Option D) :
    (cmpOption a b).swap = cmpOption b a := by
  cases a <;> cases b
  · rfl
  · rfl
  · rfl
  · exact compare_swap_eq _ _

theorem cmpOption_ne_gt_trans {D : Type} [LinearOrder D] :
    ∀ a b c : Option D, cmpOption a b ≠ .gt → cmpOption b c ≠ .gt → cmpOption a c ≠ .gt
  | none, _, none, _, _ => by intro h; cases h
  | none, _, some _, _, _ => by intro h; cases h
  | some _, none, _, h1, _ => absurd rfl h1
  | some _, some _, none, _, h2 => absurd rfl h2
  | some x, some y, some z, h1, h2 =>
    compare_le_iff_le.mpr (le_trans (compare_le_iff_le.mp h1) (compare_le_iff_le.mp h2))

theorem cmpOption_ne_gt_total {D : Type} [LinearOrder D] :
    ∀ a b : Option D, cmpOption a b ≠ .gt ∨ cmpOption b a ≠ .gt
  | none, none => Or.inl (by intro h; cases h)
  | none, some _ => Or.inl (by intro h; cases h)
  | some _, none => Or.inr (by intro h; cases h)
  | some x, some y =>
    (le_total x y).imp (fun h => compare_le_iff_le.mpr h) (fun h => compare_le_iff_le.mpr h)

theorem recordLe_eq_true_iff {D : Type} [LinearOrder D] (key : String) (ascending : Bool)
    (ra rb : Record D) :
    recordLe key ascending ra rb = true ↔ recordCompare key ascending ra rb ≠ .gt := by
  unfold recordLe
  cases h : recordCompare key ascending ra rb <;> simp [h]

theorem recordCompare_true_eq {D : Type} [LinearOrder D] (key : String) (ra rb : Record D) :
    recordCompare key true ra rb = cmpOption (ra.get key) (rb.get key) := by
  unfold recordCompare
  simp

theorem recordCompare_false_eq {D : Type} [LinearOrder D] (key : String) (ra rb : Record D) :
    recordCompare key false ra rb = cmpOption (rb.get key) (ra.get key) := by
  unfold recordCompare
  simp [cmpOption_swap]

theorem recordLeP_trans {D : Type} [LinearOrder D] (key : String) (ascending : Bool)
    (ra rb rc : Record D) (h1 : recordLeP key ascending ra rb)
    (h2 : recordLeP key ascending rb rc) : recordLeP key ascending ra rc := by
  unfold recordLeP at h1 h2 ⊢
  rw [recordLe_eq_true_iff] at h1 h2 ⊢
  cases ascending
  · rw [recordCompare_false_eq] at h1 h2 ⊢
    exact cmpOption_ne_gt_trans _ _ _ h2 h1
  · rw [recordCompare_true_eq] at h1 h2 ⊢
    exact cmpOption_ne_gt_trans _ _ _ h1 h2

theorem recordLeP_total {D : Type} [LinearOrder D] (key : String) (ascending : Bool)
    (ra rb : Record D) : recordLeP key ascending ra rb ∨ recordLeP key ascending rb ra := by
  unfold recordLeP
  rw [recordLe_eq_true_iff, recordLe_eq_true_iff]
  cases ascending
  · rw [recordCompare_false_eq, recordCompare_false_eq]
    exact (cmpOption_ne_gt_total _ _).symm
  · rw [recordCompare_true_eq, recordCompare_true_eq]
    exact cmpOption_ne_gt_total _ _

theorem recordLeP_keeps_present {D : Type} [LinearOrder D] {key : String} {a b : Record D}
    (h : recordLeP key true a b) (hp : (a.get key).isSome = true) :
    (b.get key).isSome = true := by
  cases ha : a.get key with
  | none => rw [ha] at hp; cases hp
  | some x =>
    cases hb : b.get key with
    | some y => rfl
    | none =>
      unfold recordLeP recordLe at h
      rw [recordCompare_true_eq, ha, hb] at h
      simp [cmpOption] at h

theorem recordLeP_keeps_absent {D : Type} [LinearOrder D] {key : String} {a b : Record D}
    (h : recordLeP key false a b) (hp : a.get key = none) : b.get key = none := by
  cases hb : b.get key with
  | none => rfl
  | some y =>
    unfold recordLeP recordLe at h
    rw [recordCompare_false_eq, hb, hp] at h
    simp [cmpOption] at h

theorem indexMapInsert_keys {V : Type} (m : List (String × V)) (k : String) (v : V) :
    (indexMapInsert m k v).map Prod.fst =
      if k ∈ m.map Prod.fst then m.map Prod.fst else m.map Prod.fst ++ [k] := by
  induction m with
  | nil => simp [indexMapInsert]
  | cons p rest ih =>
    obtain ⟨k', v'⟩ := p
    by_cases h : k' = k
    · subst h
      simp [indexMapInsert]
    · simp only [indexMapInsert, if_neg h, List.map_cons, List.mem_cons]
      rw [ih]
      have h' : ¬ (k = k') := fun hh => h hh.symm
      by_cases hm : k ∈ rest.map Prod.fst
      · simp [hm, h']
      · simp [hm, h']

theorem indexMapShiftRemove_keys {V : Type} (m : List (String × V)) (k : String) :
    (indexMapShiftRemove m k).2.map Prod.fst = (m.map Prod.fst).erase k := by
  induction m with
  | nil => simp [indexMapShiftRemove]
  | cons p rest ih =>
    obtain ⟨k', v'⟩ := p
    by_cases h : k' = k
    · subst h
      simp [indexMapShiftRemove, List.erase_cons]
    · simp only [indexMapShiftRemove, if_neg h, List.map_cons, List.erase_cons]
      rw [if_neg (by simpa using h)]
      simpa using ih

theorem indexMapInsert_find {V : Type} (m : List (String × V)) (k : String) (v : V) :
    ((indexMapInsert m k v).find? (fun p => p.1 == k)).map Prod.snd = some v := by
  induction m with
  | nil => simp [indexMapInsert]
  | cons p rest ih =>
    obtain ⟨k', v'⟩ := p
    by_cases h : k' = k
    · subst h
      simp [indexMapInsert]
    · simp only [indexMapInsert, if_neg h]
      rw [List.find?_cons_of_neg _ (by simpa using h)]
      exact ih

/-- C1: `sort_records` is stable: any two records that occur in order in the
store and whose values at the sort key compare equal (including both absent)
still occur in that order after `sort_records key ascending`, for either
value of `ascending`. -/
theorem sort_records_stable {D : Type} [LinearOrder D] (v : SpreadsheetView D) (key : String)
    (ascending : Bool) (r1 r2 : Record D)
    (heq : cmpOption (r1.get key) (r2.get key) = Ordering.eq)
    (hsub : [r1, r2].Sublist v.records) :
    [r1, r2].Sublist (v.sort_records key ascending).records := by
  have hab : recordLeP key ascending r1 r2 := by
    unfold recordLeP
    rw [recordLe_eq_true_iff]
    cases ascending
    · rw [recordCompare_false_eq]
      have h2 : cmpOption (r2.get key) (r1.get key) = Ordering.eq := by
        rw [← cmpOption_swap, heq]
        rfl
      rw [h2]
      decide
    · rw [recordCompare_true_eq, heq]
      decide
  unfold SpreadsheetView.sort_records
  split
  · exact List.pair_sublist_insertionSort hab hsub
  · exact hsub

/-- C1 witness: two records equal at key "k", in a view with that column,
under a descending sort. -/
theorem sort_records_stable_witness :
    cmpOption (recW1.get "k") (recW2.get "k") = Ordering.eq ∧
    [recW1, recW2].Sublist viewW1.records ∧
    [recW1, recW2].Sublist ((viewW1.sort_records "k" false).records) :=
  ⟨by decide, by decide,
    sort_records_stable viewW1 "k" false recW1 recW2 (by decide) (by decide)⟩

/-- C2 counterexample: in `viewC2` (column "k"; first record lacks "k",
second has it), a descending sort moves the key-lacking record to the high
end of the sequence, so the key-lacking records do not occupy the low end
regardless of direction. -/
theorem sort_records_absent_low_end_cex :
    (viewC2.sort_records "k" false).records = [recPresent, recAbsent] ∧
    ¬ absentsAtLowEnd "k" ((viewC2.sort_records "k" false).records) := by
  decide

/-- C2 amended: a record with no entry at the sort key compares as less than
any record with a present entry; consequently, when `key` is a registered
column, after `sort_records key true` the key-lacking records occupy the low
end of the sequence, while after `sort_records key false` the comparator is
reversed wholesale and they occupy the high end. -/
theorem sort_records_absent_end_amended {D : Type} [LinearOrder D] (v : SpreadsheetView D)
    (key : String) (hk : indexMapContainsKey v.columns key = true) :
    (∀ d : D, cmpOption none (some d) = Ordering.lt) ∧
    absentsAtLowEnd key ((v.sort_records key true).records) ∧
    absentsAtHighEnd key ((v.sort_records key false).records) := by
  refine ⟨fun d => rfl, ?_, ?_⟩
  · unfold SpreadsheetView.sort_records
    rw [if_pos hk]
    unfold absentsAtLowEnd
    haveI : IsTrans (Record D) (recordLeP key true) :=
      ⟨fun a b c => recordLeP_trans key true a b c⟩
    haveI : IsTotal (Record D) (recordLeP key true) :=
      ⟨fun a b => recordLeP_total key true a b⟩
    have hs := List.sorted_insertionSort (recordLeP key true) v.records
    exact List.Pairwise.imp (fun {a b} h hp => recordLeP_keeps_present h hp) hs
  · unfold SpreadsheetView.sort_records
    rw [if_pos hk]
    unfold absentsAtHighEnd
    haveI : IsTrans (Record D) (recordLeP key false) :=
      ⟨fun a b c => recordLeP_trans key false a b c⟩
    haveI : IsTotal (Record D) (recordLeP key false) :=
      ⟨fun a b => recordLeP_total key false a b⟩
    have hs := List.sorted_insertionSort (recordLeP key false) v.records
    exact List.Pairwise.imp (fun {a b} h hp => recordLeP_keeps_absent h hp) hs

/-- C2 amended witness: concrete instantiation at `viewC2`. -/
theorem sort_records_absent_end_amended_witness :
    indexMapContainsKey viewC2.columns "k" = true ∧
    cmpOption none (some (3 : Nat)) = Ordering.lt ∧
    absentsAtLowEnd "k" ((viewC2.sort_records "k" true).records) ∧
    absentsAtHighEnd "k" ((viewC2.sort_records "k" false).records) :=
  ⟨by decide,
    (sort_records_absent_end_amended viewC2 "k" (by decide)).1 3,
    (sort_records_absent_end_amended viewC2 "k" (by decide)).2.1,
    (sort_records_absent_end_amended viewC2 "k" (by decide)).2.2⟩

/-- C10: `sort_records` only reorders the record store: the resulting record
sequence is a permutation of the one before the call, and the columns,
cursor, selection, column-select flag and enabled flag are left unchanged. -/
theorem sort_records_permutes_and_frames {D : Type} [LinearOrder D] (v : SpreadsheetView D)
    (key : String) (ascending : Bool) :
    (v.sort_records key ascending).records.Perm v.records ∧
    (v.sort_records key ascending).columns = v.columns ∧
    (v.sort_records key ascending).cursor_pos = v.cursor_pos ∧
    (v.sort_records key ascending).selected_cells = v.selected_cells ∧
    (v.sort_records key ascending).column_select = v.column_select ∧
    (v.sort_records key ascending).enabled = v.enabled := by
  unfold SpreadsheetView.sort_records
  split
  · exact ⟨List.perm_insertionSort _ _, rfl, rfl, rfl, rfl, rfl⟩
  · exact ⟨List.Perm.refl _, rfl, rfl, rfl, rfl, rfl⟩

/-- C3 counterexample: in `viewC3` (one column, one record, cursor at (0, 0)),
`clear_records` makes the record count zero yet leaves the cursor Positioned
at (0, 0), violating the cursor-validity invariant. -/
theorem cursor_invariant_cex :
    viewC3.cursor_pos = some (0, 0) ∧
    (viewC3.clear_records).len_records = 0 ∧
    (viewC3.clear_records).cursor_pos = some (0, 0) ∧
    ¬ cursorOk viewC3.clear_records := by
  decide

/-- C3 amended: `set_cursor_pos` establishes the cursor-validity invariant,
but no structural mutation re-derives the cursor: `clear_records`,
`pop_record`, `remove_record`, `pop_column` and `remove_column` all leave
`cursor_pos` exactly as it was, even when they make a count zero. -/
theorem cursor_invariant_amended {D : Type} (v : SpreadsheetView D) (x y index : Nat)
    (key : String) :
    cursorOk (v.set_cursor_pos x y) ∧
    (v.clear_records).cursor_pos = v.cursor_pos ∧
    (v.pop_record).2.cursor_pos = v.cursor_pos ∧
    ((v.remove_record index).2.cursor_pos = v.cursor_pos) ∧
    (v.pop_column).2.cursor_pos = v.cursor_pos ∧
    (v.remove_column key).2.cursor_pos = v.cursor_pos := by
  refine ⟨?_, rfl, rfl, ?_, rfl, rfl⟩
  · cases hcc : v.columns.length with
    | zero =>
      simp [cursorOk, SpreadsheetView.set_cursor_pos, SpreadsheetView.len_columns,
        SpreadsheetView.len_records, hcc]
    | succ n =>
      cases hrr : v.records.length with
      | zero =>
        simp [cursorOk, SpreadsheetView.set_cursor_pos, SpreadsheetView.len_columns,
          SpreadsheetView.len_records, hcc, hrr]
      | succ m =>
        simp only [cursorOk, SpreadsheetView.set_cursor_pos, SpreadsheetView.len_columns,
          SpreadsheetView.len_records, hcc, hrr, Nat.add_sub_cancel]
        exact ⟨Nat.lt_succ_of_le (Nat.min_le_right x n), Nat.lt_succ_of_le (Nat.min_le_right y m)⟩
  · unfold SpreadsheetView.remove_record
    split <;> rfl

/-- C4: `set_cursor_pos x y` clamps: with positive counts `C`, `R` the cursor
becomes `(min x (C-1), min y (R-1))`; with either count zero it becomes
Absent; it is never rejected. -/
theorem set_cursor_pos_clamps {D : Type} (v : SpreadsheetView D) (x y : Nat) :
    (0 < v.len_columns → 0 < v.len_records →
      (v.set_cursor_pos x y).cursor_pos =
        some (Nat.min x (v.len_columns - 1), Nat.min y (v.len_records - 1))) ∧
    ((v.len_columns = 0 ∨ v.len_records = 0) → (v.set_cursor_pos x y).cursor_pos = none) := by
  simp only [SpreadsheetView.len_columns, SpreadsheetView.len_records]
  constructor
  · intro hc hr
    cases hcc : v.columns.length with
    | zero => omega
    | succ n =>
      cases hrr : v.records.length with
      | zero => omega
      | succ m =>
        simp [SpreadsheetView.set_cursor_pos, SpreadsheetView.len_columns,
          SpreadsheetView.len_records, hcc, hrr]
  · intro h
    rcases h with h | h
    · simp [SpreadsheetView.set_cursor_pos, SpreadsheetView.len_columns,
        SpreadsheetView.len_records, h]
    · cases hcc : v.columns.length with
      | zero =>
        simp [SpreadsheetView.set_cursor_pos, SpreadsheetView.len_columns,
          SpreadsheetView.len_records, hcc]
      | succ n =>
        simp [SpreadsheetView.set_cursor_pos, SpreadsheetView.len_columns,
          SpreadsheetView.len_records, hcc, h]

/-- C4 witness: clamping at `viewW1` (1 column, 2 records) and absence on the
empty view. -/
theorem set_cursor_pos_clamps_witness :
    (viewW1.set_cursor_pos 5 7).cursor_pos = some (0, 1) ∧
    ((SpreadsheetView.new : SpreadsheetView Nat).set_cursor_pos 3 4).cursor_pos = none :=
  ⟨((set_cursor_pos_clamps viewW1 5 7).1 (by decide) (by decide)).trans (by decide),
    (set_cursor_pos_clamps (SpreadsheetView.new : SpreadsheetView Nat) 3 4).2
      (Or.inl (by decide))⟩

/-- C5 counterexample: in a disabled view, `set_cursor_pos` still moves the
cursor (from Absent to (0, 0) in `viewW1.disable`), so it is not a no-op
while disabled. -/
theorem disabled_set_cursor_cex :
    (viewW1.disable).is_enabled = false ∧
    (viewW1.disable).cursor_pos = none ∧
    ((viewW1.disable).set_cursor_pos 0 0).cursor_pos = some (0, 0) := by
  decide

/-- C5 amended: `set_cursor_pos` does not consult the enabled flag: on a
disabled view it performs exactly the same update as on an enabled one
(there are no selection-mutating operations in the engine core, and `disable`
itself touches nothing but the flag). -/
theorem set_cursor_pos_ignores_enabled {D : Type} (v : SpreadsheetView D) (x y : Nat) :
    (v.disable).set_cursor_pos x y = (v.set_cursor_pos x y).disable ∧
    ((v.disable).set_cursor_pos x y).cursor_pos = (v.set_cursor_pos x y).cursor_pos ∧
    (v.disable).selected_cells = v.selected_cells ∧
    (v.disable).cursor_pos = v.cursor_pos :=
  ⟨rfl, rfl, rfl, rfl⟩

/-- C6: sorting by a key that is not a registered column is a complete no-op:
the whole view state is returned unchanged, and no error is possible. -/
theorem sort_records_unknown_key_noop {D : Type} [LinearOrder D] (v : SpreadsheetView D)
    (key : String) (ascending : Bool) (h : indexMapContainsKey v.columns key = false) :
    v.sort_records key ascending = v := by
  unfold SpreadsheetView.sort_records
  rw [if_neg (by simp [h])]

/-- C6 witness: sorting `viewW1` by the unregistered key "zzz". -/
theorem sort_records_unknown_key_noop_witness :
    indexMapContainsKey viewW1.columns "zzz" = false ∧
    viewW1.sort_records "zzz" true = viewW1 :=
  ⟨by decide, sort_records_unknown_key_noop viewW1 "zzz" true (by decide)⟩

/-- C7: `remove_record index` with `index` out of bounds returns `None` and
leaves the view unchanged; with `index` in bounds it returns the record at
`index` and shifts every later record down by one position. -/
theorem remove_record_spec {D : Type} (v : SpreadsheetView D) (index : Nat) :
    (v.records.length ≤ index → v.remove_record index = (none, v)) ∧
    (index < v.records.length →
      (v.remove_record index).1 = v.records[index]? ∧
      ∀ j : Nat, index < j → ((v.remove_record index).2.records)[j - 1]? = v.records[j]?) := by
  constructor
  · intro h
    unfold SpreadsheetView.remove_record
    rw [if_neg (by omega)]
  · intro h
    unfold SpreadsheetView.remove_record
    rw [if_pos h]
    refine ⟨rfl, ?_⟩
    intro j hj
    show (v.records.eraseIdx index)[j - 1]? = v.records[j]?
    rw [List.getElem?_eraseIdx_of_ge v.records index (j - 1) (by omega)]
    congr 1
    omega

/-- C7 witness: out-of-bounds and in-bounds removal on `viewW1`. -/
theorem remove_record_spec_witness :
    viewW1.remove_record 5 = (none, viewW1) ∧
    (viewW1.remove_record 0).1 = viewW1.records[0]? ∧
    ((viewW1.remove_record 0).2.records)[0]? = viewW1.records[1]? :=
  ⟨(remove_record_spec viewW1 5).1 (by decide),
    ((remove_record_spec viewW1 0).2 (by decide)).1,
    ((remove_record_spec viewW1 0).2 (by decide)).2 1 (by decide)⟩

/-- C8: for any sequence of `push_column` / `remove_column` calls, the
iteration order of the column registry is the first-insertion order of the
currently-present keys as computed directly from the call sequence
(`specColumnKeys`): replacement keeps a key's position, removal keeps the
order of the rest, and a removed-then-reinserted key moves to the end;
moreover `push_column` with an existing key does replace the stored
definition. -/
theorem column_order_spec {D : Type} (v : SpreadsheetView D) (ops : List ColOp)
    (k : String) (cd : ColumnDef) :
    (applyColOps v ops).columns.map Prod.fst = specColumnKeys (v.columns.map Prod.fst) ops ∧
    ((v.push_column k cd).columns.find? (fun p => p.1 == k)).map Prod.snd = some cd := by
  constructor
  · induction ops generalizing v with
    | nil => rfl
    | cons op ops ih =>
      cases op with
      | push k' cd' =>
        simp only [applyColOps, specColumnKeys]
        rw [ih]
        congr 1
        simpa [SpreadsheetView.push_column] using indexMapInsert_keys v.columns k' cd'
      | remove k' =>
        simp only [applyColOps, specColumnKeys]
        rw [ih]
        congr 1
        simpa [SpreadsheetView.remove_column] using indexMapShiftRemove_keys v.columns k'
  · exact indexMapInsert_find v.columns k cd
